import Mathlib

/-!
# Verification of the blast-kupo template compilation and rendering subsystem

Shallow embedding of `blaster/template.go`: the random primitive library,
the pattern generators, the recursive compiler `parseRenderer`, and the
renderer tree (`mapR`, `sliceR`, `templateR`, `nativeR`).

The process-wide random source (Go `math/rand`) is modelled as a stream of
raw draws `g : Nat → Nat` together with a cursor `i : Nat`: the call that
happens `k`-th reads `g k` and advances the cursor.  `rand.Intn n` maps a
raw draw `d` to `d % n` (its possible results are exactly `[0, n)`), and
panics — modelled as `none` — when `n ≤ 0`.  Go `int` is 64 bits wide, so
`rand_int`'s subtraction and addition wrap modulo `2^64` (`wrap64`).
External library calls (`text/template` parse and execute, `blake2b`) are
taken as explicit function parameters: they are not code of this
repository.
-/

namespace Blaster

/-- A stream of raw draws from the process-wide random source. -/
abbrev G := Nat → Nat

/-- Two's-complement wrap of an integer into `[-2^63, 2^63)`: the result of
Go 64-bit `int` arithmetic. -/
def wrap64 (n : Int) : Int := (n + 2 ^ 63) % 2 ^ 64 - 2 ^ 63

/-- `rand.Intn n`: `none` models the panic on a non-positive argument;
otherwise the result is `d % n` for the raw draw `d`, together with the
advanced cursor. -/
def intn (g : G) (i : Nat) (n : Int) : Option (Int × Nat) :=
  if n ≤ 0 then none else some ((g i : Int) % n, i + 1)

/-- `randInt` (template function `rand_int`): `rand.Intn(to-from) + from`,
with the subtraction and the addition performed on Go 64-bit `int`. -/
def randInt (g : G) («from» «to» : Int) (i : Nat) : Option (Int × Nat) :=
  (intn g i (wrap64 («to» - «from»))).map (fun vi => (wrap64 (vi.1 + «from»), vi.2))

/-- The character-building loop of `randStringWithAlphabet`:
`b[k] = alphabet[rand.Intn(len(alphabet))]`, one raw draw per character.
Every caller passes a non-empty alphabet (on an empty one `rand.Intn 0`
would panic; the `getD` default is never reached for a non-empty
alphabet since `d % length < length`). -/
def randChars (g : G) (alphabet : List Char) : Nat → Nat → List Char × Nat
  | 0, i => ([], i)
  | n + 1, i =>
    let c := alphabet.getD (g i % alphabet.length) 'a'
    let r := randChars g alphabet n (i + 1)
    (c :: r.1, r.2)

/-- `randStringWithAlphabet`: a string of `length` characters, each drawn
from `alphabet`. -/
def randStringWithAlphabet (g : G) (alphabet : List Char) (length : Nat) (i : Nat) :
    String × Nat :=
  let r := randChars g alphabet length i
  (String.mk r.1, r.2)

/-- The alphabet of `randHexString`. -/
def hexAlphabet : List Char := "abcdefABCDEF0123456789".toList

/-- `randHexString`. -/
def randHexString (g : G) (length : Nat) (i : Nat) : String × Nat :=
  randStringWithAlphabet g hexAlphabet length i

/-- The alphabet of `randString`. -/
def lettersAlphabet : List Char :=
  "abcdefghijklmnopqrstuvwxyzABCDEFGHIJKLMNOPQRSTUVWXYZ".toList

/-- `randString` (template function `rand_string`). -/
def randString (g : G) (length : Nat) (i : Nat) : String × Nat :=
  randStringWithAlphabet g lettersAlphabet length i

/-- Swap two positions of a list (the `swap` callback handed to
`rand.Shuffle`); out-of-range indices leave the list unchanged (never hit:
`rand.Shuffle` only produces in-range indices). -/
def listSwap (l : List α) (a b : Nat) : List α :=
  match l.get? a, l.get? b with
  | some x, some y => (l.set a y).set b x
  | _, _ => l

/-- The Fisher–Yates loop of `rand.Shuffle`: for `k = n-1` down to `1`,
draw `j := rand.Intn(k+1)` and swap positions `k` and `j`. -/
def shuffleAux (g : G) : Nat → List α → Nat → List α × Nat
  | 0, l, i => (l, i)
  | k + 1, l, i => shuffleAux g k (listSwap l (k + 1) (g i % (k + 2))) (i + 1)

/-- `rand.Shuffle n swap` applied to a list of length `n`. -/
def shuffleList (g : G) (l : List α) (i : Nat) : List α × Nat :=
  shuffleAux g (l.length - 1) l i

/-- A candidate producer (`func() string`) that may itself consume draws. -/
abbrev Src := Nat → String × Nat

/-- `shuffleSources`: return `""` on an empty candidate list, otherwise
shuffle the candidates and evaluate only the first one. -/
def shuffleSources (g : G) (sources : List Src) (i : Nat) : String × Nat :=
  if sources.isEmpty then ("", i)
  else
    let r := shuffleList g sources i
    match r.1 with
    | [] => ("", r.2)
    | f :: _ => f r.2

/-- `randPolicyIDPattern`: a 56-hex-character string or the wildcard. -/
def randPolicyIDPattern (g : G) (i : Nat) : String × Nat :=
  shuffleSources g [fun j => randHexString g 56 j, fun j => ("*", j)] i

/-- `randAssetNamePattern`: the wildcard plus one hex candidate for every
length `0 ≤ n ≤ 64`.  The `for i := 0; i <= 64` loop binds the loop
variable per iteration (each appended closure returns `randHexString(i)`
for its own iteration's `i`), following the spec's description of one
candidate per length — the module's Go language-version declaration is not
among the sources. -/
def randAssetNamePattern (g : G) (i : Nat) : String × Nat :=
  shuffleSources g
    ((fun j => ("*", j)) :: (List.range 65).map (fun n => fun j => randHexString g n j)) i

/-- `randAssetPattern` (template function `rand_asset`):
`<policy-id-pattern>.<asset-name-pattern>`. -/
def randAssetPattern (g : G) (i : Nat) : String × Nat :=
  let p := randPolicyIDPattern g i
  let a := randAssetNamePattern g p.2
  (p.1 ++ "." ++ a.1, a.2)

/-- `randOutputIndex`: `fmt.Sprint(randDigit()*100 + randDigit()*10 + randDigit())`
(three independent digit draws, evaluated left to right) or the wildcard. -/
def randOutputIndex (g : G) (i : Nat) : String × Nat :=
  shuffleSources g
    [fun j => (Nat.repr (g j % 10 * 100 + g (j + 1) % 10 * 10 + g (j + 2) % 10), j + 3),
     fun j => ("*", j)] i

/-- `randTransactionId`: a 64-hex-character string. -/
def randTransactionId (g : G) (i : Nat) : String × Nat :=
  randHexString g 64 i

/-- `randOutputReferencePattern` (template function `rand_output_ref`):
`<output-index>@<transaction-id>`. -/
def randOutputReferencePattern (g : G) (i : Nat) : String × Nat :=
  let idx := randOutputIndex g i
  let tx := randTransactionId g idx.2
  (idx.1 ++ "@" ++ tx.1, tx.2)

/-- A byte. -/
abbrev Byte := Fin 256

/-- A 256-bit digest, Go `[32]byte`. -/
abbrev Digest := Fin 32 → Byte

/-- `randBlake2b256`: read 128 bytes from the random source; if the read
returned an error, log it and substitute the all-zero 128-byte buffer;
hash the buffer.  `sum256` abstracts the external `blake2b.Sum256`, and
`readRes` is the outcome of the `rand.Read` call.  The return type shows
the function always produces a digest and never an error. -/
def randBlake2b256 (sum256 : List Byte → Digest)
    (readRes : Except String (List Byte)) : Digest :=
  match readRes with
  | .ok buf => sum256 buf
  | .error _ => sum256 (List.replicate 128 (0 : Byte))

/-- The sixteen lowercase hex digits, in value order. -/
def hexDigitChars : List Char := "0123456789abcdef".toList

/-- The hex digit of a value below 16. -/
def hexDigit (n : Nat) : Char := hexDigitChars.getD n '0'

/-- `fmt.Sprintf("%x", bytes)`: two lowercase hex digits per byte. -/
def bytesToHexChars : List Byte → List Char
  | [] => []
  | b :: bs => hexDigit (b.val / 16) :: hexDigit (b.val % 16) :: bytesToHexChars bs

/-- `randBlake2b256Hex`: the digest printed as lowercase hex. -/
def randBlake2b256Hex (sum256 : List Byte → Digest)
    (readRes : Except String (List Byte)) : String :=
  String.mk (bytesToHexChars (List.ofFn (randBlake2b256 sum256 readRes)))

/-- `randDatumHash` (template function `rand_datum_hash`). -/
def randDatumHash (sum256 : List Byte → Digest)
    (readRes : Except String (List Byte)) : String :=
  randBlake2b256Hex sum256 readRes

/-- A compiled template, kept abstract as its source text (the actual parse
tree lives in Go's `text/template`, which is external to this repository;
parsing and execution are passed in as function parameters below). -/
structure Template where
  src : String
deriving DecidableEq

/-- A Go `error` value, modelled by its message. -/
abbrev Err := String

/-- The scalar family accepted by the type switch of `parseRenderer`
(`bool`, the signed/unsigned integer types, the float types, the complex
types); float and complex payloads are carried as opaque bit patterns,
since nothing ever computes with them. -/
inductive Scalar where
  | sBool (b : Bool)
  | sInt (n : Int)
  | sFloat (bits : Nat)
  | sComplex (rbits ibits : Nat)
deriving DecidableEq

/-- `RawValue`: the untyped tree handed to the compiler (`interface{}`).
`other` stands for any runtime type outside the handled set (the `default`
branch of the type switch).  A Go map is unordered; the association list
fixes one iteration order. -/
inductive Raw where
  | null
  | scalar (s : Scalar)
  | str (s : String)
  | seq (l : List Raw)
  | map (l : List (String × Raw))
  | other

/-- The renderer tree.  Map and slice slots hold `Option Renderer`: `none`
is the absent ("no renderer") slot, the `nil` `interface{}` value that the
`v.(renderer)` type assertion in `render` rejects and passes through. -/
inductive Renderer where
  | mapR (l : List (String × Option Renderer))
  | sliceR (l : List (Option Renderer))
  | templateR (t : Template)
  | nativeR (s : Scalar)

mutual

/-- `parseRenderer`: the recursive compiler.  `tp` abstracts
`template.New("t").Funcs(builtins).Parse` (external); its error is
propagated (Go wraps it with `errors.WithStack`, which preserves the
message).  `Except.error` models the `(nil, err)` return — no renderer
tree accompanies an error. -/
def parseRenderer (tp : String → Except Err Template) : Raw → Except Err (Option Renderer)
  | .null => .ok none
  | .map l => (parseMapSlots tp l).map (fun s => some (.mapR s))
  | .seq l => (parseSeqSlots tp l).map (fun s => some (.sliceR s))
  | .str s => (tp s).map (fun t => some (.templateR t))
  | .scalar s => .ok (some (.nativeR s))
  | .other => .ok none

/-- The map loop of `parseRenderer`: compile each value, aborting on the
first child error. -/
def parseMapSlots (tp : String → Except Err Template) :
    List (String × Raw) → Except Err (List (String × Option Renderer))
  | [] => .ok []
  | (k, v) :: rest => do
    let p ← parseRenderer tp v
    let ps ← parseMapSlots tp rest
    pure ((k, p) :: ps)

/-- The slice loop of `parseRenderer`: compile each element in order,
aborting on the first child error. -/
def parseSeqSlots (tp : String → Except Err Template) :
    List Raw → Except Err (List (Option Renderer))
  | [] => .ok []
  | v :: rest => do
    let p ← parseRenderer tp v
    let ps ← parseSeqSlots tp rest
    pure (p :: ps)

end

/-- `RenderContext`: the string-keyed variable context of a render call. -/
abbrev Ctx := List (String × String)

/-- `RenderedValue`: the output tree of a render call.  `vnull` is the
`nil` interface value, the output of an absent-renderer slot. -/
inductive Value where
  | vnull
  | vscalar (s : Scalar)
  | vstr (s : String)
  | vseq (l : List Value)
  | vmap (l : List (String × Value))

mutual

/-- `render` on each renderer node.  `exec` abstracts `text/template`
`Execute` (external); on template success the buffer's string is
returned. -/
def renderR (exec : Template → Ctx → Except Err String) :
    Renderer → Ctx → Except Err Value
  | .mapR l, ctx => (renderMapSlots exec l ctx).map Value.vmap
  | .sliceR l, ctx => (renderSeqSlots exec l ctx).map Value.vseq
  | .templateR t, ctx => (exec t ctx).map Value.vstr
  | .nativeR s, _ => .ok (.vscalar s)

/-- One map/slice slot: the `v.(renderer)` type assertion.  An absent slot
is passed through unchanged (the `nil` interface value, `vnull`). -/
def renderSlot (exec : Template → Ctx → Except Err String) :
    Option Renderer → Ctx → Except Err Value
  | none, _ => .ok .vnull
  | some r, ctx => renderR exec r ctx

/-- The loop of `mapR.render`: render each slot, aborting on the first
child error. -/
def renderMapSlots (exec : Template → Ctx → Except Err String) :
    List (String × Option Renderer) → Ctx → Except Err (List (String × Value))
  | [], _ => .ok []
  | (k, v) :: rest, ctx => do
    let r ← renderSlot exec v ctx
    let rs ← renderMapSlots exec rest ctx
    pure ((k, r) :: rs)

/-- The loop of `sliceR.render`: render each slot in order, aborting on the
first child error. -/
def renderSeqSlots (exec : Template → Ctx → Except Err String) :
    List (Option Renderer) → Ctx → Except Err (List Value)
  | [], _ => .ok []
  | v :: rest, ctx => do
    let r ← renderSlot exec v ctx
    let rs ← renderSeqSlots exec rest ctx
    pure (r :: rs)

end

/-- A hex character: `[0-9a-fA-F]`. -/
def isHexChar (c : Char) : Bool :=
  c.isDigit || ('a' ≤ c && c ≤ 'f') || ('A' ≤ c && c ≤ 'F')

/-- A lowercase hex character: `[0-9a-f]`. -/
def isLowerHexChar (c : Char) : Bool :=
  c.isDigit || ('a' ≤ c && c ≤ 'f')

/-! ## Helper lemmas -/

theorem getD_mem_of_lt {α} (l : List α) (idx : Nat) (h : idx < l.length) (d : α) :
    l.getD idx d ∈ l := by
  rw [List.getD_eq_getElem?_getD, List.getElem?_eq_getElem h]
  exact List.getElem_mem h

theorem randChars_length (g : G) (a : List Char) (n i : Nat) :
    ((randChars g a n i).1).length = n := by
  induction n generalizing i with
  | zero => simp [randChars]
  | succ n ih => simp [randChars, ih]

theorem randChars_mem (g : G) (a : List Char) (ha : a ≠ []) (n i : Nat) :
    ∀ c ∈ (randChars g a n i).1, c ∈ a := by
  induction n generalizing i with
  | zero => simp [randChars]
  | succ n ih =>
    intro c hc
    simp only [randChars, List.mem_cons] at hc
    rcases hc with h | h
    · subst h
      exact getD_mem_of_lt a _ (Nat.mod_lt _ (List.length_pos.mpr ha)) 'a'
    · exact ih (i + 1) c h

theorem randStringWithAlphabet_length (g : G) (a : List Char) (n i : Nat) :
    ((randStringWithAlphabet g a n i).1).length = n := by
  simp [randStringWithAlphabet, randChars_length]

theorem randStringWithAlphabet_data (g : G) (a : List Char) (n i : Nat) :
    ((randStringWithAlphabet g a n i).1).data = (randChars g a n i).1 := rfl

theorem randHexString_length (g : G) (n i : Nat) :
    ((randHexString g n i).1).length = n :=
  randStringWithAlphabet_length g hexAlphabet n i

theorem randHexString_mem (g : G) (n i : Nat) :
    ∀ c ∈ ((randHexString g n i).1).data, isHexChar c = true := by
  intro c hc
  rw [randHexString, randStringWithAlphabet_data] at hc
  have hmem : c ∈ hexAlphabet := randChars_mem g hexAlphabet (by decide) n i c hc
  have : ∀ x ∈ hexAlphabet, isHexChar x = true := by decide
  exact this c hmem

theorem listSwap_length {α} (l : List α) (a b : Nat) :
    (listSwap l a b).length = l.length := by
  unfold listSwap
  cases h₁ : l.get? a <;> cases h₂ : l.get? b <;> simp

theorem mem_of_mem_listSwap {α} {l : List α} {a b : Nat} {x : α}
    (h : x ∈ listSwap l a b) : x ∈ l := by
  unfold listSwap at h
  cases h₁ : l.get? a <;> cases h₂ : l.get? b <;> rw [h₁, h₂] at h
  case some.some y z =>
    rcases List.mem_or_eq_of_mem_set h with h' | h'
    · rcases List.mem_or_eq_of_mem_set h' with h'' | h''
      · exact h''
      · exact h'' ▸ List.get?_mem h₂
    · exact h' ▸ List.get?_mem h₁
  all_goals exact h

theorem shuffleAux_length {α} (g : G) (k : Nat) (l : List α) (i : Nat) :
    ((shuffleAux g k l i).1).length = l.length := by
  induction k generalizing l i with
  | zero => simp [shuffleAux]
  | succ k ih => rw [shuffleAux, ih, listSwap_length]

theorem shuffleAux_mem {α} (g : G) (k : Nat) (l : List α) (i : Nat) :
    ∀ x ∈ (shuffleAux g k l i).1, x ∈ l := by
  induction k generalizing l i with
  | zero => simp [shuffleAux]
  | succ k ih =>
    intro x hx
    rw [shuffleAux] at hx
    exact mem_of_mem_listSwap (ih _ _ x hx)

theorem shuffleSources_cases (g : G) (sources : List Src) (i : Nat)
    (h : sources ≠ []) :
    ∃ f ∈ sources, ∃ i', shuffleSources g sources i = f i' := by
  obtain ⟨f, rest, hl⟩ : ∃ f rest, (shuffleList g sources i).1 = f :: rest := by
    have hlen : ((shuffleList g sources i).1).length = sources.length :=
      shuffleAux_length g (sources.length - 1) sources i
    cases hc : (shuffleList g sources i).1 with
    | nil =>
      rw [hc] at hlen
      exact absurd (List.length_eq_zero.mp hlen.symm) h
    | cons f rest => exact ⟨f, rest, rfl⟩
  refine ⟨f, ?_, (shuffleList g sources i).2, ?_⟩
  · exact shuffleAux_mem g _ sources i f (hl ▸ List.mem_cons_self f rest)
  · unfold shuffleSources
    rw [if_neg (by simpa using h)]
    simp only [hl]

theorem randString_mem (g : G) (n i : Nat) :
    ∀ c ∈ ((randString g n i).1).data, c.isAlpha = true := by
  intro c hc
  rw [randString, randStringWithAlphabet_data] at hc
  have hmem : c ∈ lettersAlphabet := randChars_mem g lettersAlphabet (by decide) n i c hc
  have : ∀ x ∈ lettersAlphabet, x.isAlpha = true := by decide
  exact this c hmem

set_option maxRecDepth 10000 in
theorem repr_lt_1000 : ∀ v < 1000, 1 ≤ (Nat.repr v).length ∧ (Nat.repr v).length ≤ 3 ∧
    ∀ c ∈ (Nat.repr v).data, c.isDigit = true := by decide

theorem bytesToHexChars_length (bs : List Byte) :
    (bytesToHexChars bs).length = 2 * bs.length := by
  induction bs with
  | nil => simp [bytesToHexChars]
  | cons b bs ih => simp [bytesToHexChars, ih]; ring

theorem bytesToHexChars_mem (bs : List Byte) :
    ∀ c ∈ bytesToHexChars bs, c ∈ hexDigitChars := by
  induction bs with
  | nil => simp [bytesToHexChars]
  | cons b bs ih =>
    intro c hc
    have hdiv : b.val / 16 < 16 := by omega
    have hmod : b.val % 16 < 16 := Nat.mod_lt _ (by norm_num)
    simp only [bytesToHexChars, List.mem_cons] at hc
    rcases hc with h | h | h
    · exact h ▸ getD_mem_of_lt hexDigitChars _ (by simpa [hexDigitChars] using hdiv) '0'
    · exact h ▸ getD_mem_of_lt hexDigitChars _ (by simpa [hexDigitChars] using hmod) '0'
    · exact ih c h

theorem wrap64_eq_self {n : Int} (h₁ : -(2 ^ 63) ≤ n) (h₂ : n < 2 ^ 63) :
    wrap64 n = n := by
  unfold wrap64
  rw [Int.emod_eq_of_lt (by omega) (by omega)]
  omega

theorem exceptPure {α : Type} (a : α) : (pure a : Except Err α) = .ok a := rfl

theorem exceptBind_ok {α β : Type} (a : α) (f : α → Except Err β) :
    (Except.ok a >>= f) = f a := rfl

theorem exceptBind_err {α β : Type} (e : Err) (f : α → Except Err β) :
    ((Except.error e : Except Err α) >>= f) = .error e := rfl

theorem exceptMap_ok {α β : Type} (a : α) (f : α → β) :
    (Except.ok a : Except Err α).map f = .ok (f a) := rfl

theorem exceptMap_err {α β : Type} (e : Err) (f : α → β) :
    ((Except.error e : Except Err α)).map f = .error e := rfl

theorem exceptMap_err_iff {α β : Type} (x : Except Err α) (f : α → β) (e : Err) :
    x.map f = .error e ↔ x = .error e := by
  cases x <;> simp [Except.map]

theorem renderMapSlots_ok (exec : Template → Ctx → Except Err String)
    (l : List (String × Option Renderer)) (ctx : Ctx) (out : List (String × Value))
    (h : renderMapSlots exec l ctx = .ok out) :
    out.map Prod.fst = l.map Prod.fst ∧
    ∀ j (hj : j < l.length) (hj' : j < out.length),
      (out.get ⟨j, hj'⟩).1 = (l.get ⟨j, hj⟩).1 ∧
      renderSlot exec (l.get ⟨j, hj⟩).2 ctx = .ok (out.get ⟨j, hj'⟩).2 := by
  induction l generalizing out with
  | nil =>
    rw [renderMapSlots] at h
    cases h
    simp
  | cons kv rest ih =>
    obtain ⟨k, v⟩ := kv
    rw [renderMapSlots] at h
    cases hr : renderSlot exec v ctx with
    | error e => rw [hr, exceptBind_err] at h; cases h
    | ok r =>
      rw [hr, exceptBind_ok] at h
      cases hrs : renderMapSlots exec rest ctx with
      | error e => rw [hrs, exceptBind_err] at h; cases h
      | ok rs =>
        rw [hrs, exceptBind_ok] at h
        cases h
        obtain ⟨ih1, ih2⟩ := ih rs hrs
        refine ⟨by simpa using ih1, ?_⟩
        intro j hj hj'
        cases j with
        | zero => exact ⟨rfl, by simpa using hr⟩
        | succ j =>
          exact ih2 j (by simpa using hj) (by simpa using hj')

theorem renderSeqSlots_ok (exec : Template → Ctx → Except Err String)
    (l : List (Option Renderer)) (ctx : Ctx) (out : List Value)
    (h : renderSeqSlots exec l ctx = .ok out) :
    out.length = l.length ∧
    ∀ j (hj : j < l.length) (hj' : j < out.length),
      renderSlot exec (l.get ⟨j, hj⟩) ctx = .ok (out.get ⟨j, hj'⟩) := by
  induction l generalizing out with
  | nil =>
    rw [renderSeqSlots] at h
    cases h
    simp
  | cons v rest ih =>
    rw [renderSeqSlots] at h
    cases hr : renderSlot exec v ctx with
    | error e => rw [hr, exceptBind_err] at h; cases h
    | ok r =>
      rw [hr, exceptBind_ok] at h
      cases hrs : renderSeqSlots exec rest ctx with
      | error e => rw [hrs, exceptBind_err] at h; cases h
      | ok rs =>
        rw [hrs, exceptBind_ok] at h
        cases h
        obtain ⟨ih1, ih2⟩ := ih rs hrs
        refine ⟨by simpa using ih1, ?_⟩
        intro j hj hj'
        cases j with
        | zero => exact by simpa using hr
        | succ j =>
          exact ih2 j (by simpa using hj) (by simpa using hj')

theorem parseMapSlots_error_iff (tp : String → Except Err Template)
    (l : List (String × Raw)) :
    (∃ e, parseMapSlots tp l = .error e) ↔
      ∃ kv ∈ l, ∃ e, parseRenderer tp kv.2 = .error e := by
  induction l with
  | nil =>
    rw [parseMapSlots]
    simp
  | cons kv rest ih =>
    obtain ⟨k, v⟩ := kv
    cases hv : parseRenderer tp v with
    | error e =>
      constructor
      · intro _
        exact ⟨(k, v), List.mem_cons_self _ _, e, hv⟩
      · intro _
        exact ⟨e, by rw [parseMapSlots, hv, exceptBind_err]⟩
    | ok p =>
      cases hrest : parseMapSlots tp rest with
      | error e' =>
        constructor
        · intro _
          obtain ⟨kv', hkv', he⟩ := ih.mp ⟨e', hrest⟩
          exact ⟨kv', List.mem_cons_of_mem _ hkv', he⟩
        · intro _
          exact ⟨e', by rw [parseMapSlots, hv, exceptBind_ok, hrest, exceptBind_err]⟩
      | ok ps =>
        constructor
        · intro ⟨e, he⟩
          rw [parseMapSlots, hv, exceptBind_ok, hrest, exceptBind_ok] at he
          cases he
        · intro ⟨kv', hkv', e, he⟩
          rcases List.mem_cons.mp hkv' with rfl | hmem
          · rw [hv] at he; cases he
          · have : ∃ e', parseMapSlots tp rest = .error e' :=
              ih.mpr ⟨kv', hmem, e, he⟩
            rw [hrest] at this
            obtain ⟨e', he'⟩ := this
            cases he'

theorem parseSeqSlots_error_iff (tp : String → Except Err Template)
    (l : List Raw) :
    (∃ e, parseSeqSlots tp l = .error e) ↔
      ∃ v ∈ l, ∃ e, parseRenderer tp v = .error e := by
  induction l with
  | nil =>
    rw [parseSeqSlots]
    simp
  | cons v rest ih =>
    cases hv : parseRenderer tp v with
    | error e =>
      constructor
      · intro _
        exact ⟨v, List.mem_cons_self _ _, e, hv⟩
      · intro _
        exact ⟨e, by rw [parseSeqSlots, hv, exceptBind_err]⟩
    | ok p =>
      cases hrest : parseSeqSlots tp rest with
      | error e' =>
        constructor
        · intro _
          obtain ⟨v', hv', he⟩ := ih.mp ⟨e', hrest⟩
          exact ⟨v', List.mem_cons_of_mem _ hv', he⟩
        · intro _
          exact ⟨e', by rw [parseSeqSlots, hv, exceptBind_ok, hrest, exceptBind_err]⟩
      | ok ps =>
        constructor
        · intro ⟨e, he⟩
          rw [parseSeqSlots, hv, exceptBind_ok, hrest, exceptBind_ok] at he
          cases he
        · intro ⟨v', hv', e, he⟩
          rcases List.mem_cons.mp hv' with rfl | hmem
          · rw [hv] at he; cases he
          · have : ∃ e', parseSeqSlots tp rest = .error e' :=
              ih.mpr ⟨v', hmem, e, he⟩
            rw [hrest] at this
            obtain ⟨e', he'⟩ := this
            cases he'

theorem parseMapSlots_first_error (tp : String → Except Err Template)
    (l₁ : List (String × Raw)) (k : String) (v : Raw) (l₂ : List (String × Raw))
    (e : Err) (hok : ∀ kv ∈ l₁, ∃ s, parseRenderer tp kv.2 = .ok s)
    (he : parseRenderer tp v = .error e) :
    parseMapSlots tp (l₁ ++ (k, v) :: l₂) = .error e := by
  induction l₁ with
  | nil => rw [List.nil_append, parseMapSlots, he, exceptBind_err]
  | cons kv' rest ih =>
    obtain ⟨k', v'⟩ := kv'
    obtain ⟨s, hs⟩ := hok (k', v') (List.mem_cons_self _ _)
    rw [List.cons_append, parseMapSlots, hs, exceptBind_ok,
      ih (fun kv hkv => hok kv (List.mem_cons_of_mem _ hkv)), exceptBind_err]

theorem parseSeqSlots_first_error (tp : String → Except Err Template)
    (l₁ : List Raw) (v : Raw) (l₂ : List Raw) (e : Err)
    (hok : ∀ u ∈ l₁, ∃ s, parseRenderer tp u = .ok s)
    (he : parseRenderer tp v = .error e) :
    parseSeqSlots tp (l₁ ++ v :: l₂) = .error e := by
  induction l₁ with
  | nil => rw [List.nil_append, parseSeqSlots, he, exceptBind_err]
  | cons u rest ih =>
    obtain ⟨s, hs⟩ := hok u (List.mem_cons_self _ _)
    rw [List.cons_append, parseSeqSlots, hs, exceptBind_ok,
      ih (fun u' hu' => hok u' (List.mem_cons_of_mem _ hu')), exceptBind_err]

theorem parseRenderer_map_eq (tp : String → Except Err Template)
    (l : List (String × Raw)) :
    parseRenderer tp (.map l) = (parseMapSlots tp l).map (fun s => some (.mapR s)) := by
  rw [parseRenderer]

theorem parseRenderer_seq_eq (tp : String → Except Err Template) (l : List Raw) :
    parseRenderer tp (.seq l) = (parseSeqSlots tp l).map (fun s => some (.sliceR s)) := by
  rw [parseRenderer]

/-! ## Claim theorems -/

/-- C6: for every length `n ≥ 0`, `rand_string(n)` returns a string of
exactly `n` characters, each character drawn from the alphabet
`[a-zA-Z]`. -/
theorem randString_shape (g : G) (n i : Nat) :
    ((randString g n i).1).length = n ∧
    ∀ c ∈ ((randString g n i).1).data, c.isAlpha = true :=
  ⟨randStringWithAlphabet_length g lettersAlphabet n i, randString_mem g n i⟩

/-- C8: every string returned by `rand_datum_hash` (the hex encoding of the
256-bit hash of a 128-byte random buffer) consists of exactly 64
characters, each a lowercase hex digit `[0-9a-f]`. -/
theorem randDatumHash_shape (sum256 : List Byte → Digest)
    (readRes : Except String (List Byte)) :
    (randDatumHash sum256 readRes).length = 64 ∧
    ∀ c ∈ (randDatumHash sum256 readRes).data, isLowerHexChar c = true := by
  constructor
  · show (String.mk (bytesToHexChars (List.ofFn (randBlake2b256 sum256 readRes)))).length = 64
    simp [bytesToHexChars_length]
  · intro c hc
    have hmem : c ∈ hexDigitChars := bytesToHexChars_mem _ c hc
    have hall : ∀ x ∈ hexDigitChars, isLowerHexChar x = true := by decide
    exact hall c hmem

/-- C5: if reading from the random source fails during hash generation, the
generator substitutes an all-zero 128-byte buffer and still returns a hash
digest (its return type carries no error); the hex form of that digest is
still a full 64-character string, so a render invoking it does not fail. -/
theorem randBlake2b256_entropy_fallback (sum256 : List Byte → Digest) (e : String) :
    randBlake2b256 sum256 (.error e) = sum256 (List.replicate 128 (0 : Byte)) ∧
    (randBlake2b256Hex sum256 (.error e)).length = 64 := by
  refine ⟨rfl, ?_⟩
  show (String.mk (bytesToHexChars (List.ofFn (randBlake2b256 sum256 (.error e))))).length = 64
  simp [bytesToHexChars_length]

/-- C7 (amended): for every pair of 64-bit integers `a < b` whose
difference `b - a` does not overflow `int64` (`b - a < 2^63`),
`rand_int(a, b)` returns a value in `[a, b)`.  (The unamended claim fails
when the subtraction `to - from` overflows; see
`randInt_overflow_counterexample`.) -/
theorem randInt_in_range (g : G) («from» «to» : Int) (i : Nat)
    (h₁ : -(2 ^ 63) ≤ «from») (h₂ : «to» < 2 ^ 63) (h₃ : «from» < «to»)
    (h₄ : «to» - «from» < 2 ^ 63) :
    ∃ v, randInt g «from» «to» i = some (v, i + 1) ∧ «from» ≤ v ∧ v < «to» := by
  have hd : wrap64 («to» - «from») = «to» - «from» := wrap64_eq_self (by omega) h₄
  have hpos : (0 : Int) < «to» - «from» := by omega
  have hv0 : 0 ≤ (g i : Int) % («to» - «from») := Int.emod_nonneg _ (by omega)
  have hv1 : (g i : Int) % («to» - «from») < «to» - «from» := Int.emod_lt_of_pos _ hpos
  refine ⟨(g i : Int) % («to» - «from») + «from», ?_, by omega, by omega⟩
  unfold randInt intn
  rw [hd, if_neg (by omega)]
  simp only [Option.map_some']
  rw [wrap64_eq_self (by omega) (by omega)]

/-- Witness for C7: `rand_int(0, 10)` with draw 7 returns 7 in `[0, 10)`. -/
theorem randInt_in_range_witness :
    ∃ v, randInt (fun _ => 7) 0 10 0 = some (v, 1) ∧ 0 ≤ v ∧ v < 10 :=
  randInt_in_range (fun _ => 7) 0 10 0 (by norm_num) (by norm_num) (by norm_num)
    (by norm_num)

/-- C7 counterexample: at `a = -2^63`, `b = 2^63 - 1` (both valid `int64`,
`a < b`) the Go subtraction `to - from` wraps to `-1`, `rand.Intn(-1)`
panics, and no value in `[a, b)` is returned. -/
theorem randInt_overflow_counterexample :
    ((-(2 ^ 63) : Int) < 2 ^ 63 - 1) ∧
      randInt (fun _ => 0) (-(2 ^ 63)) (2 ^ 63 - 1) 0 = none := by
  constructor
  · norm_num
  · decide

/-- C10 (amended): `rand_int(from, to)` returns normally exactly when the
64-bit wrapped difference `wrap64 (to - from)` is positive.  In particular
with `to ≤ from` and a non-overflowing difference (`from - to ≤ 2^63`) the
underlying bounded draw receives a non-positive bound and panics, producing
no value — but when `from - to > 2^63` the wrapped difference is positive
and a value is returned, so totality is not exactly `to > from` (see
`randInt_wrap_counterexample`). -/
theorem randInt_total_iff (g : G) («from» «to» : Int) (i : Nat) :
    ((randInt g «from» «to» i).isSome = true ↔ 0 < wrap64 («to» - «from»)) ∧
      («to» ≤ «from» → «from» - «to» ≤ 2 ^ 63 → randInt g «from» «to» i = none) := by
  constructor
  · unfold randInt intn
    by_cases h : wrap64 («to» - «from») ≤ 0
    · rw [if_pos h]
      simp only [Option.map_none', Option.isSome_none]
      constructor
      · intro hh; exact absurd hh (by simp)
      · intro hh; omega
    · rw [if_neg h]
      simp only [Option.map_some', Option.isSome_some]
      constructor
      · intro _; omega
      · intro _; trivial
  · intro hle hno
    have hws : wrap64 («to» - «from») = «to» - «from» :=
      wrap64_eq_self (by omega) (by omega)
    unfold randInt intn
    rw [hws, if_pos (by omega)]
    rfl

/-- Witness for C10: `rand_int(5, 3)` reaches the panic branch. -/
theorem randInt_total_iff_witness : randInt (fun _ => 0) 5 3 0 = none :=
  (randInt_total_iff (fun _ => 0) 5 3 0).2 (by norm_num) (by norm_num)

/-- C10 counterexample: at `from = 2^63 - 1`, `to = -2^63` we have
`to ≤ from`, yet the wrapped difference is `1`, the bounded draw succeeds,
and the call returns `2^63 - 1` instead of reaching the failure branch. -/
theorem randInt_wrap_counterexample :
    ((-(2 ^ 63) : Int) ≤ 2 ^ 63 - 1) ∧
      randInt (fun _ => 0) (2 ^ 63 - 1) (-(2 ^ 63)) 0 = some (2 ^ 63 - 1, 1) := by
  constructor
  · norm_num
  · decide

/-- C1: every string returned by `rand_asset` matches `<policy>.<name>`,
where `<policy>` is the literal `"*"` or a string of exactly 56 hex
characters, and `<name>` is `"*"` or a hex string whose length is between
0 and 64 inclusive — the asset-name alternation's candidates are the
wildcard and one hex producer for each length from 0 through 64. -/
theorem randAssetPattern_shape (g : G) (i : Nat) :
    ∃ p n, (randAssetPattern g i).1 = p ++ "." ++ n ∧
      (p = "*" ∨ (p.length = 56 ∧ ∀ c ∈ p.data, isHexChar c = true)) ∧
      (n = "*" ∨ (n.length ≤ 64 ∧ ∀ c ∈ n.data, isHexChar c = true)) := by
  obtain ⟨fp, hfp, ip, hp⟩ :=
    shuffleSources_cases g [fun j => randHexString g 56 j, fun j => ("*", j)] i
      (by simp)
  obtain ⟨fn, hfn, ia, ha⟩ :=
    shuffleSources_cases g
      ((fun j => ("*", j)) :: (List.range 65).map (fun n => fun j => randHexString g n j))
      (randPolicyIDPattern g i).2 (by simp)
  have hp' : randPolicyIDPattern g i = fp ip := hp
  have ha' : randAssetNamePattern g (randPolicyIDPattern g i).2 = fn ia := ha
  refine ⟨(randPolicyIDPattern g i).1,
    (randAssetNamePattern g (randPolicyIDPattern g i).2).1, rfl, ?_, ?_⟩
  · rw [hp']
    simp only [List.mem_cons, List.not_mem_nil, or_false] at hfp
    rcases hfp with rfl | rfl
    · exact Or.inr ⟨randHexString_length g 56 ip, randHexString_mem g 56 ip⟩
    · exact Or.inl rfl
  · rw [ha']
    simp only [List.mem_cons, List.mem_map, List.mem_range] at hfn
    rcases hfn with rfl | ⟨n, hn, rfl⟩
    · exact Or.inl rfl
    · refine Or.inr ⟨?_, randHexString_mem g n ia⟩
      rw [randHexString_length g n ia]
      omega

/-- C9: every string returned by `rand_output_ref` matches
`<index>@<txid>`, where `<txid>` is exactly 64 hex characters and
`<index>` is the literal `"*"` or the 1–3-digit decimal representation
(no forced leading zeros) of a value built from three independent digit
draws, hence in `[0, 999]`. -/
theorem randOutputReferencePattern_shape (g : G) (i : Nat) :
    ∃ idx tx, (randOutputReferencePattern g i).1 = idx ++ "@" ++ tx ∧
      tx.length = 64 ∧ (∀ c ∈ tx.data, isHexChar c = true) ∧
      (idx = "*" ∨
        (1 ≤ idx.length ∧ idx.length ≤ 3 ∧ ∀ c ∈ idx.data, c.isDigit = true)) := by
  obtain ⟨fi, hfi, ii, hi⟩ :=
    shuffleSources_cases g
      [fun j => (Nat.repr (g j % 10 * 100 + g (j + 1) % 10 * 10 + g (j + 2) % 10), j + 3),
       fun j => ("*", j)] i (by simp)
  have hi' : randOutputIndex g i = fi ii := hi
  refine ⟨(randOutputIndex g i).1, (randTransactionId g (randOutputIndex g i).2).1,
    rfl, randHexString_length g 64 _, randHexString_mem g 64 _, ?_⟩
  rw [hi']
  simp only [List.mem_cons, List.not_mem_nil, or_false] at hfi
  rcases hfi with rfl | rfl
  · refine Or.inr ?_
    have hval : g ii % 10 * 100 + g (ii + 1) % 10 * 10 + g (ii + 2) % 10 < 1000 := by
      have d1 := Nat.mod_lt (g ii) (show 0 < 10 by norm_num)
      have d2 := Nat.mod_lt (g (ii + 1)) (show 0 < 10 by norm_num)
      have d3 := Nat.mod_lt (g (ii + 2)) (show 0 < 10 by norm_num)
      omega
    exact repr_lt_1000 _ hval
  · exact Or.inl rfl

/-- C2: for every compiled map (respectively sequence) renderer, a
successful render returns a map with exactly the same keys in the same
iteration order (respectively a sequence of the same length with elements
in the same order, each the render of the slot at the same position), and
every slot that compiled to "no renderer" (`none`) is passed through into
the output under its original key or position as the nil value `vnull`. -/
theorem render_shape_preservation (exec : Template → Ctx → Except Err String)
    (ctx : Ctx) :
    (∀ (l : List (String × Option Renderer)) (v : Value),
      renderR exec (.mapR l) ctx = .ok v →
      ∃ out, v = .vmap out ∧ out.map Prod.fst = l.map Prod.fst ∧
        ∀ j (hj : j < l.length) (hj' : j < out.length),
          (out.get ⟨j, hj'⟩).1 = (l.get ⟨j, hj⟩).1 ∧
          renderSlot exec (l.get ⟨j, hj⟩).2 ctx = .ok (out.get ⟨j, hj'⟩).2 ∧
          ((l.get ⟨j, hj⟩).2 = none → (out.get ⟨j, hj'⟩).2 = .vnull)) ∧
    (∀ (l : List (Option Renderer)) (v : Value),
      renderR exec (.sliceR l) ctx = .ok v →
      ∃ out, v = .vseq out ∧ out.length = l.length ∧
        ∀ j (hj : j < l.length) (hj' : j < out.length),
          renderSlot exec (l.get ⟨j, hj⟩) ctx = .ok (out.get ⟨j, hj'⟩) ∧
          (l.get ⟨j, hj⟩ = none → out.get ⟨j, hj'⟩ = .vnull)) := by
  constructor
  · intro l v h
    rw [renderR] at h
    cases hm : renderMapSlots exec l ctx with
    | error e => rw [hm, exceptMap_err] at h; cases h
    | ok out =>
      rw [hm, exceptMap_ok] at h
      cases h
      obtain ⟨h1, h2⟩ := renderMapSlots_ok exec l ctx out hm
      refine ⟨out, rfl, h1, ?_⟩
      intro j hj hj'
      obtain ⟨hk, hs⟩ := h2 j hj hj'
      refine ⟨hk, hs, ?_⟩
      intro hnone
      rw [hnone] at hs
      rw [renderSlot] at hs
      injection hs with hs'
      exact hs'.symm
  · intro l v h
    rw [renderR] at h
    cases hm : renderSeqSlots exec l ctx with
    | error e => rw [hm, exceptMap_err] at h; cases h
    | ok out =>
      rw [hm, exceptMap_ok] at h
      cases h
      obtain ⟨h1, h2⟩ := renderSeqSlots_ok exec l ctx out hm
      refine ⟨out, rfl, h1, ?_⟩
      intro j hj hj'
      have hs := h2 j hj hj'
      refine ⟨hs, ?_⟩
      intro hnone
      rw [hnone] at hs
      rw [renderSlot] at hs
      injection hs with hs'
      exact hs'.symm

/-- Witness for C2: rendering the compiled map `{a: none, b: native true}`
succeeds, keeps both keys in order, and passes the absent slot through as
the nil value. -/
theorem render_shape_preservation_witness :
    ∃ out, Value.vmap [("a", Value.vnull), ("b", Value.vscalar (.sBool true))] =
        Value.vmap out ∧
      out.map Prod.fst =
        [("a", (none : Option Renderer)),
         ("b", some (.nativeR (.sBool true)))].map Prod.fst ∧
      ∀ j (hj : j < [("a", (none : Option Renderer)),
            ("b", some (.nativeR (.sBool true)))].length) (hj' : j < out.length),
        (out.get ⟨j, hj'⟩).1 =
          ([("a", (none : Option Renderer)),
            ("b", some (.nativeR (.sBool true)))].get ⟨j, hj⟩).1 ∧
        renderSlot (fun t _ => .ok t.src)
            ([("a", (none : Option Renderer)),
              ("b", some (.nativeR (.sBool true)))].get ⟨j, hj⟩).2 [] =
          .ok (out.get ⟨j, hj'⟩).2 ∧
        (([("a", (none : Option Renderer)),
           ("b", some (.nativeR (.sBool true)))].get ⟨j, hj⟩).2 = none →
          (out.get ⟨j, hj'⟩).2 = .vnull) :=
  (render_shape_preservation (fun t _ => .ok t.src) []).1
    [("a", none), ("b", some (.nativeR (.sBool true)))]
    (.vmap [("a", .vnull), ("b", .vscalar (.sBool true))])
    (by simp [renderR, renderMapSlots, renderSlot, exceptBind_ok, exceptPure,
          exceptMap_ok])

/-- C3: for every mapping or sequence input, `parseRenderer` returns an
error if and only if compiling some child returns an error; on the first
failing child (in iteration order) it aborts and propagates that child's
error.  In the model an `Except.error` result carries no renderer tree,
mirroring the `(nil, err)` return — no partial trees. -/
theorem parseRenderer_fail_fast (tp : String → Except Err Template) :
    (∀ l : List (String × Raw),
      ((∃ e, parseRenderer tp (.map l) = .error e) ↔
        ∃ kv ∈ l, ∃ e, parseRenderer tp kv.2 = .error e) ∧
      ∀ (l₁ : List (String × Raw)) (k : String) (v : Raw)
        (l₂ : List (String × Raw)) (e : Err),
        (∀ kv ∈ l₁, ∃ s, parseRenderer tp kv.2 = .ok s) →
        parseRenderer tp v = .error e →
        parseRenderer tp (.map (l₁ ++ (k, v) :: l₂)) = .error e) ∧
    (∀ l : List Raw,
      ((∃ e, parseRenderer tp (.seq l) = .error e) ↔
        ∃ v ∈ l, ∃ e, parseRenderer tp v = .error e) ∧
      ∀ (l₁ : List Raw) (v : Raw) (l₂ : List Raw) (e : Err),
        (∀ u ∈ l₁, ∃ s, parseRenderer tp u = .ok s) →
        parseRenderer tp v = .error e →
        parseRenderer tp (.seq (l₁ ++ v :: l₂)) = .error e) := by
  constructor
  · intro l
    constructor
    · rw [parseRenderer_map_eq]
      constructor
      · intro ⟨e, he⟩
        exact (parseMapSlots_error_iff tp l).mp ⟨e, (exceptMap_err_iff _ _ e).mp he⟩
      · intro hc
        obtain ⟨e, he⟩ := (parseMapSlots_error_iff tp l).mpr hc
        exact ⟨e, by rw [he, exceptMap_err]⟩
    · intro l₁ k v l₂ e hok he
      rw [parseRenderer_map_eq, parseMapSlots_first_error tp l₁ k v l₂ e hok he,
        exceptMap_err]
  · intro l
    constructor
    · rw [parseRenderer_seq_eq]
      constructor
      · intro ⟨e, he⟩
        exact (parseSeqSlots_error_iff tp l).mp ⟨e, (exceptMap_err_iff _ _ e).mp he⟩
      · intro hc
        obtain ⟨e, he⟩ := (parseSeqSlots_error_iff tp l).mpr hc
        exact ⟨e, by rw [he, exceptMap_err]⟩
    · intro l₁ v l₂ e hok he
      rw [parseRenderer_seq_eq, parseSeqSlots_first_error tp l₁ v l₂ e hok he,
        exceptMap_err]

/-- Witness for C3: with a parser failing exactly on the text `bad`,
compiling the mapping `{a: null, b: "bad", c: "alsobad"}` propagates the
first failing child's error. -/
theorem parseRenderer_fail_fast_witness :
    parseRenderer (fun s => if s = "bad" then .error "syntax" else .ok ⟨s⟩)
      (.map ([("a", .null)] ++ ("b", .str "bad") :: [("c", .str "alsobad")])) =
      .error "syntax" :=
  ((parseRenderer_fail_fast (fun s => if s = "bad" then .error "syntax" else .ok ⟨s⟩)).1
      [("a", .null)]).2 [("a", .null)] "b" (.str "bad") [("c", .str "alsobad")]
    "syntax"
    (by
      intro kv hkv
      rcases List.mem_singleton.mp hkv with rfl
      exact ⟨none, by rw [parseRenderer]⟩)
    (by rw [parseRenderer]; simp [Except.map])

/-- C4: compiling null, or any input whose runtime type falls to the
`default` branch of the type switch, yields "no renderer" (`none`) with no
error, and downstream rendering passes such an absent slot through as the
identity nil value. -/
theorem parse_null_other_passthrough (tp : String → Except Err Template)
    (exec : Template → Ctx → Except Err String) (ctx : Ctx) :
    parseRenderer tp .null = .ok none ∧
    parseRenderer tp .other = .ok none ∧
    renderSlot exec none ctx = .ok .vnull := by
  refine ⟨?_, ?_, ?_⟩
  · rw [parseRenderer]
  · rw [parseRenderer]
  · rw [renderSlot]

end Blaster
